import Mathlib

/-!
Verification of the cleaning engine of the Data_Cleaner repository.

The repository cleans pandas DataFrames in three stages
(`src/data_cleaner.py`): `clean_missing_values`, `remove_duplicates`,
`convert_data_types`; a chart selector lives in `src/app.py` (lines 49-57)
and plot functions in `src/data_visualizer.py`.

The embedding below models a DataFrame column-wise (a list of named, typed
columns whose cells are `Option Value`, `none` being the NaN/None missing
marker) for the per-column stages, and row-wise (an index label paired with
a row of cells) for the row-oriented duplicate eliminator, which compares
whole rows and never looks at names or dtypes.  pandas dtypes are collapsed
to the four the code distinguishes: numeric, datetime64, object and
category.  Exceptions escaping to the caller (`KeyError` from an empty
`mode()` lookup, `AttributeError` from a missing method) are modelled with
`Except`.
-/

namespace DataCleaner

/-- A cell value: a number (pandas numeric scalars, modelled as ℚ), a
timestamp (modelled as a Nat code), or a string. -/
inductive Value where
  | num  (q : ℚ)
  | date (d : Nat)
  | str  (s : String)
deriving DecidableEq

/-- A cell: `none` is the missing marker (NaN / None / NaT). -/
abbrev Cell := Option Value

/-- The dtypes `data_cleaner.py` distinguishes: `np.issubdtype(dtype,
np.number)`, `is_datetime64_dtype`, `dtype == object`, and pandas
`category`. -/
inductive Dtype where
  | numeric
  | datetime
  | object
  | category
deriving DecidableEq

/-- A named, typed column of cells. -/
structure Column where
  name  : String
  dtype : Dtype
  cells : List Cell
deriving DecidableEq

/-- A DataFrame, viewed column-wise. -/
structure DataFrame where
  cols : List Column
deriving DecidableEq

/-- Python exceptions that escape the modelled functions. -/
inductive PyError where
  | keyError
  | attributeError
deriving DecidableEq

/-- The present (non-missing) values of a list of cells. -/
def presentVals (cells : List Cell) : List Value := cells.filterMap id

/-- `isnull().sum()` for one column: the number of missing cells. -/
def missingCountL (cells : List Cell) : Nat := cells.countP fun c => c.isNone

/-- The number of present values. -/
def presentCount (cells : List Cell) : Nat := (presentVals cells).length

/-- Distinct elements of a list in order of first appearance, relative to an
accumulator of elements already seen. -/
def goFirstOccs {α : Type} [DecidableEq α] (seen : List α) : List α → List α
  | [] => []
  | x :: xs => if x ∈ seen then goFirstOccs seen xs else x :: goFirstOccs (x :: seen) xs

/-- Distinct elements of a list, in order of first appearance. -/
def firstOccs {α : Type} [DecidableEq α] (l : List α) : List α := goFirstOccs [] l

/-- Insert into a sorted list of rationals. -/
def insertQ (x : ℚ) : List ℚ → List ℚ
  | [] => [x]
  | y :: ys => if x ≤ y then x :: y :: ys else y :: insertQ x ys

/-- Insertion sort on rationals. -/
def sortQ : List ℚ → List ℚ
  | [] => []
  | x :: xs => insertQ x (sortQ xs)

/-- `Series.median()` with NaN skipped: the middle element of the sorted
present values, or the mean of the two middle ones; `none` when there is no
value (pandas returns NaN there). -/
def medianQ (l : List ℚ) : Option ℚ :=
  let s := sortQ l
  let n := s.length
  if n = 0 then none
  else if n % 2 = 1 then s.get? (n / 2)
  else
    match s.get? (n / 2 - 1), s.get? (n / 2) with
    | some a, some b => some ((a + b) / 2)
    | _, _ => none

/-- Numeric content of a value (a numeric-dtype column holds only these). -/
def cellToQ : Value → Option ℚ
  | .num q => some q
  | _ => none

/-- The rational values among the present values of a column. -/
def ratList (cells : List Cell) : List ℚ := (presentVals cells).filterMap cellToQ

/-- The column median, as a fill value. -/
def medianCell (cells : List Cell) : Option Value := (medianQ (ratList cells)).map Value.num

/-- `fillna(v)`: replace each missing cell by `v`; filling with NaN
(`v = none`, the all-missing median case) leaves the cells unchanged. -/
def fillWith (v : Option Value) (cells : List Cell) : List Cell :=
  match v with
  | none => cells
  | some m => cells.map fun x => some (x.getD m)

/-- Forward fill with a carried last-known value. -/
def ffillGo (carry : Cell) : List Cell → List Cell
  | [] => []
  | c :: cs =>
    match c with
    | some v => some v :: ffillGo (some v) cs
    | none => carry :: ffillGo carry cs

/-- `fillna(method='ffill')`. -/
def ffillL (cells : List Cell) : List Cell := ffillGo none cells

/-- `fillna(method='bfill')`: forward fill of the reversed list. -/
def bfillL (cells : List Cell) : List Cell := (ffillGo none cells.reverse).reverse

/-- Constructor rank, used to compare values of different shapes. -/
def valueRank : Value → Nat
  | .num _ => 0
  | .date _ => 1
  | .str _ => 2

/-- Lexicographic order on character lists by code point, the order pandas
sorts strings in. -/
def charListLe : List Char → List Char → Bool
  | [], _ => true
  | _ :: _, [] => false
  | c :: cs, d :: ds =>
    if c.toNat < d.toNat then true
    else if c.toNat = d.toNat then charListLe cs ds
    else false

/-- A total `Bool`-valued order on values: inside one constructor the
natural order of the payload, across constructors the rank. -/
def vle : Value → Value → Bool
  | .num a, .num b => decide (a ≤ b)
  | .date a, .date b => decide (a ≤ b)
  | .str a, .str b => charListLe a.data b.data
  | v, w => decide (valueRank v ≤ valueRank w)

/-- Scan the remaining distinct values keeping the best mode candidate:
a strictly more frequent value wins, and on equal frequency the smaller
value wins (pandas `Series.mode()` returns the modes sorted ascending, so
`mode()[0]` is the least most-frequent value). -/
def pickMode (l : List Value) : Value → List Value → Value
  | best, [] => best
  | best, v :: vs =>
    if l.count best < l.count v then pickMode l v vs
    else if (l.count v == l.count best && vle v best) then pickMode l v vs
    else pickMode l best vs

/-- `Series.mode()[0]` on the present values: `none` when there is no
present value (there `mode()` is empty and `[0]` raises `KeyError`). -/
def seriesMode (l : List Value) : Option Value :=
  match firstOccs l with
  | [] => none
  | v :: vs => some (pickMode l v vs)

/-- Except-valued `mapM`, written out structurally: the first error aborts,
as an uncaught exception does in the Python column loop. -/
def mapME {α β : Type} (f : α → Except PyError β) : List α → Except PyError (List β)
  | [] => .ok []
  | a :: l =>
    match f a with
    | .error e => .error e
    | .ok b =>
      match mapME f l with
      | .error e => .error e
      | .ok bs => .ok (b :: bs)

/-- One iteration of the column loop of `clean_missing_values`
(src/data_cleaner.py lines 46-63): columns without missing values are not
in `columns_with_missing` and stay untouched; numeric columns are filled
with the median, datetime columns forward- then backward-filled, and any
other column filled with `mode()[0]`, which raises `KeyError` when the
column has no present value. -/
def cleanColumn (c : Column) : Except PyError Column :=
  if missingCountL c.cells = 0 then .ok c
  else
    match c.dtype with
    | .numeric => .ok { c with cells := fillWith (medianCell c.cells) c.cells }
    | .datetime => .ok { c with cells := bfillL (ffillL c.cells) }
    | _ =>
      match seriesMode (presentVals c.cells) with
      | none => .error .keyError
      | some m => .ok { c with cells := fillWith (some m) c.cells }

/-- `clean_missing_values` (src/data_cleaner.py lines 14-65). -/
def clean_missing_values (df : DataFrame) : Except PyError DataFrame :=
  match mapME cleanColumn df.cols with
  | .error e => .error e
  | .ok cs => .ok ⟨cs⟩

/-- A value consistent with a dtype: numeric columns hold numbers and
datetime columns timestamps; object and category columns are unconstrained.
This is the representation invariant pandas enforces on a real DataFrame. -/
def isTyped : Dtype → Value → Bool
  | .numeric, .num _ => true
  | .numeric, _ => false
  | .datetime, .date _ => true
  | .datetime, _ => false
  | _, _ => true

/-- Column well-formedness: every present value fits the declared dtype. -/
def colWellFormed (c : Column) : Bool :=
  (presentVals c.cells).all (isTyped c.dtype)

/-- Value of a digit string (most significant first). -/
def digitsVal (cs : List Char) : Nat := cs.foldl (fun n c => 10 * n + (c.toNat - 48)) 0

/-- All characters are decimal digits. -/
def allDigits (cs : List Char) : Bool := cs.all (·.isDigit)

/-- Unsigned decimal literal, with an optional fractional part. -/
def parseUnsignedQ (cs : List Char) : Option ℚ :=
  let ip := cs.takeWhile (·.isDigit)
  let rest := cs.dropWhile (·.isDigit)
  match rest with
  | [] => if ip.isEmpty then none else some ((digitsVal ip : ℚ))
  | '.' :: fp =>
    if allDigits fp && !(ip.isEmpty && fp.isEmpty) then
      some ((digitsVal ip : ℚ) + (digitsVal fp : ℚ) / ((10 : ℚ) ^ fp.length))
    else none
  | _ => none

/-- `pd.to_numeric` on one string, modelled on plain signed decimal
literals. -/
def parseNumericString (s : String) : Option ℚ :=
  match s.data with
  | [] => none
  | '-' :: cs => (parseUnsignedQ cs).map Neg.neg
  | '+' :: cs => parseUnsignedQ cs
  | cs => parseUnsignedQ cs

/-- `pd.to_datetime` on one string, modelled on ISO `YYYY-MM-DD` literals;
the timestamp code keeps the calendar order. -/
def parseDateString (s : String) : Option Nat :=
  match s.data.splitOn '-' with
  | [y, m, d] =>
    if allDigits y && allDigits m && allDigits d && (y.length == 4)
        && decide (1 ≤ digitsVal m) && decide (digitsVal m ≤ 12)
        && decide (1 ≤ digitsVal d) && decide (digitsVal d ≤ 31) then
      some (10000 * digitsVal y + 100 * digitsVal m + digitsVal d)
    else none
  | _ => none

/-- `pd.to_numeric` on a present cell value of an object column: numbers
pass through, strings must parse, timestamps raise `TypeError` (caught by
the cascade). -/
def parseCellNumeric : Value → Option Value
  | .num q => some (.num q)
  | .str s => (parseNumericString s).map Value.num
  | .date _ => none

/-- `pd.to_datetime` on a present cell value of an object column. -/
def parseCellTemporal : Value → Option Value
  | .date d => some (.date d)
  | .str s => (parseDateString s).map Value.date
  | .num _ => none

/-- Option-valued `mapM`, written out structurally. -/
def mapMO {α β : Type} (f : α → Option β) : List α → Option (List β)
  | [] => some []
  | a :: l =>
    match f a with
    | none => none
    | some b =>
      match mapMO f l with
      | none => none
      | some bs => some (b :: bs)

/-- All-or-nothing column parse: missing cells pass through (`to_numeric`
and `to_datetime` keep NaN), and a single unparsable present value makes
the whole attempt fail. -/
def tryParseAll (p : Value → Option Value) (cells : List Cell) : Option (List Cell) :=
  mapMO (fun c =>
    match c with
    | none => some (none : Cell)
    | some v => (p v).map some) cells

/-- `Series.nunique()`: the number of distinct present values. -/
def nunique (cells : List Cell) : Nat := (firstOccs (presentVals cells)).length

/-- One iteration of the column loop of `convert_data_types`
(src/data_cleaner.py lines 130-157): numeric and datetime columns are
skipped; only `object` columns enter the cascade (a `category` column fails
the `dtype == object` test and is left untouched); the cascade tries a full
numeric parse, then a full datetime parse, then retypes to category exactly
when `nunique < min(100, rows * 0.5)`. -/
def convertColumn (rows : Nat) (c : Column) : Column :=
  if c.dtype = .numeric ∨ c.dtype = .datetime then c
  else if c.dtype = .object then
    match tryParseAll parseCellNumeric c.cells with
    | some cs => { c with dtype := .numeric, cells := cs }
    | none =>
      match tryParseAll parseCellTemporal c.cells with
      | some cs => { c with dtype := .datetime, cells := cs }
      | none =>
        if (nunique c.cells : ℚ) < min (100 : ℚ) ((rows : ℚ) / 2)
        then { c with dtype := .category }
        else c
  else c

/-- `len(df)`: the row count, read off the first column of a uniform
table. -/
def nRows (df : DataFrame) : Nat := (df.cols.head?.map fun c => c.cells.length).getD 0

/-- `convert_data_types` (src/data_cleaner.py lines 107-159). -/
def convert_data_types (df : DataFrame) : DataFrame :=
  ⟨df.cols.map (convertColumn (nRows df))⟩

/-- A row of cells, as `drop_duplicates` compares it: plain list equality,
under which the missing marker equals the missing marker. -/
abbrev Row := List Cell

/-- A DataFrame viewed row-wise for the duplicate eliminator: each row
carries its index label.  `drop_duplicates` compares whole rows and leaves
column names and dtypes alone, so they are omitted from this view. -/
structure RowFrame where
  entries : List (Nat × Row)
deriving DecidableEq

/-- `drop_duplicates(keep='first')`: keep an entry exactly when its row has
not occurred among the already-seen rows. -/
def dropDupGo (seen : List Row) : List (Nat × Row) → List (Nat × Row)
  | [] => []
  | e :: es => if e.2 ∈ seen then dropDupGo seen es else e :: dropDupGo (e.2 :: seen) es

/-- `reset_index(drop=True)`: relabel the rows 0, 1, 2, ... in order. -/
def reindex (es : List (Nat × Row)) : List (Nat × Row) :=
  es.enum.map fun p => (p.1, p.2.2)

/-- `remove_duplicates` (src/data_cleaner.py lines 68-104): drop duplicate
rows keeping the first occurrence, then reset the index only when at least
one row was removed. -/
def remove_duplicates (t : RowFrame) : RowFrame :=
  let kept := dropDupGo [] t.entries
  let removed := t.entries.length - kept.length
  if 0 < removed then ⟨reindex kept⟩ else ⟨kept⟩

/-- The `duplicates_removed` local of `remove_duplicates`: original row
count minus the deduplicated row count. -/
def removedCount (t : RowFrame) : Nat :=
  t.entries.length - (dropDupGo [] t.entries).length

/-- The chart families of the selector in `src/app.py`. -/
inductive ChartKind where
  | histogram
  | barChart
  | pieChart
deriving DecidableEq

/-- The chart selector of `src/app.py` lines 49-57: numeric columns get a
histogram; otherwise at most 10 distinct values offer bar and pie, and more
offer bar only. -/
def selectChartTypes (dt : Dtype) (uniqueVals : Nat) : List ChartKind :=
  if dt = .numeric then [.histogram]
  else if uniqueVals ≤ 10 then [.barChart, .pieChart]
  else [.barChart]

/-- The attributes of a Matplotlib `Axes` that this repository's code
touches and that the Matplotlib 3.x API actually provides; attribute lookup
of any other name raises `AttributeError`.  Note the API has `axis`, not
`axiis`. -/
def axesAttrs : List String :=
  ["plot", "bar", "pie", "axis", "set_title", "set_xlabel", "set_ylabel",
   "text", "annotate", "set_xticklabels", "get_xticklabels", "patches", "transAxes"]

/-- Attribute lookup on a Matplotlib `Axes`. -/
def getattrAxes (m : String) : Except PyError Unit :=
  if axesAttrs.contains m then .ok () else .error .attributeError

/-- `df[column_name]`: look a column up by name (`KeyError` when absent is
raised by the caller of this lookup). -/
def findCol (df : DataFrame) (name : String) : Option Column :=
  df.cols.find? fun c => c.name == name

/-- The figure a plot function returns. -/
structure Figure where
  title : String
deriving DecidableEq

/-- `plot_pie_chart` (src/data_visualizer.py lines 127-135): look the
column up, draw `ax.pie` over its value counts, then call `ax.axiis`
(source line 131) - a name the `Axes` API does not have - before the title
is set and the figure returned. -/
def plot_pie_chart (df : DataFrame) (column_name : String) (title : Option String) :
    Except PyError Figure :=
  match findCol df column_name with
  | none => .error .keyError
  | some col =>
    let _vcounts := (firstOccs (presentVals col.cells)).map
      fun v => (v, (presentVals col.cells).count v)
    match getattrAxes "pie" with
    | .error e => .error e
    | .ok _ =>
      match getattrAxes "axiis" with
      | .error e => .error e
      | .ok _ => .ok ⟨title.getD ("Distribution of " ++ column_name)⟩

/-- Tie-breaking rule as the specification words it: rank the distinct
values by descending frequency keeping first-appearance order among equal
frequencies (a stable frequency ordering), and take the first, i.e. the
first-appearing value of maximal frequency. -/
def modeFirstInStableFrequencyOrder (l : List Value) : Option Value :=
  let u := firstOccs l
  u.find? fun v => u.all fun w => decide (l.count w ≤ l.count v)

/-- The value the forward-fill carry holds after scanning a list: the last
present value, or the initial carry when none is present. -/
def lastCarry (carry : Cell) (cells : List Cell) : Cell :=
  cells.foldl (fun acc c => match c with | some v => some v | none => acc) carry

/-- Sample table for the resolver invariant: a numeric column with a gap
and an all-missing numeric column. -/
def dfW1 : DataFrame :=
  ⟨[⟨"n", .numeric, [some (.num 1), some (.num 2), none, some (.num 4)]⟩,
    ⟨"m", .numeric, [none, none, none, none]⟩]⟩

/-- The resolver's output on `dfW1`. -/
def dfW1res : DataFrame :=
  ⟨[⟨"n", .numeric, [some (.num 1), some (.num 2), some (.num 2), some (.num 4)]⟩,
    ⟨"m", .numeric, [none, none, none, none]⟩]⟩

/-- Counterexample table for claim C2: an object column with no present
value makes `mode()[0]` raise. -/
def dfC2 : DataFrame := ⟨[⟨"c", .object, [none]⟩]⟩

/-- Counterexample table for claim C3: a two-way frequency tie where the
first-appearing mode candidate is "b" but the smaller value is "a". -/
def dfC3 : DataFrame :=
  ⟨[⟨"c", .object,
     [some (.str "b"), some (.str "a"), some (.str "b"), some (.str "a"), none]⟩]⟩

/-- The resolver's output on `dfC3`: the gap is filled with "a". -/
def dfC3res : DataFrame :=
  ⟨[⟨"c", .object,
     [some (.str "b"), some (.str "a"), some (.str "b"), some (.str "a"),
      some (.str "a")]⟩]⟩

/-- Sample table for the fill strategies: one column per dtype, each with a
present value and a gap. -/
def dfW3 : DataFrame :=
  ⟨[⟨"n", .numeric, [some (.num 1), some (.num 2), none, some (.num 4)]⟩,
    ⟨"t", .datetime, [none, some (.date 20240102), none, some (.date 20240105)]⟩,
    ⟨"c", .object, [some (.str "a"), some (.str "a"), some (.str "b"), none]⟩]⟩

/-- The resolver's output on `dfW3`. -/
def dfW3res : DataFrame :=
  ⟨[⟨"n", .numeric, [some (.num 1), some (.num 2), some (.num 2), some (.num 4)]⟩,
    ⟨"t", .datetime,
     [some (.date 20240102), some (.date 20240102), some (.date 20240102),
      some (.date 20240105)]⟩,
    ⟨"c", .object,
     [some (.str "a"), some (.str "a"), some (.str "b"), some (.str "a")]⟩]⟩

/-- Counterexample column for claim C4: a column already of category dtype
whose values would all parse as numeric. -/
def colCat : Column := ⟨"g", .category, [some (.str "1"), some (.str "2")]⟩

/-- Counterexample table for claim C4. -/
def dfC4 : DataFrame := ⟨[colCat]⟩

/-- Sample table for the coercion cascade: a numeric-as-text column. -/
def dfW4 : DataFrame :=
  ⟨[⟨"s", .object, [some (.str "1"), some (.str "2"), some (.str "3")]⟩]⟩

/-- A one-row frame; also the deduplicated form of `tC6b`. -/
def tC6a : RowFrame := ⟨[(0, [some (.num 0)])]⟩

/-- A frame whose second row duplicates its first. -/
def tC6b : RowFrame := ⟨[(0, [some (.num 0)]), (1, [some (.num 0)])]⟩

/-- Sample frame for the duplicate eliminator: rows 0 and 2 coincide (with
the missing marker in both), row 1 differs. -/
def tW5 : RowFrame :=
  ⟨[(10, [some (.num 1), none]), (11, [some (.num 2), none]),
    (12, [some (.num 1), none])]⟩

/-- Sample table for the pie-chart claim. -/
def dfW10 : DataFrame := ⟨[⟨"c", .object, [some (.str "x")]⟩]⟩

/-! Helper lemmas about the embedded combinators. -/

theorem mapME_ok_length {α β : Type} (f : α → Except PyError β) :
    ∀ (l : List α) (l2 : List β), mapME f l = .ok l2 → l2.length = l.length := by
  intro l
  induction l with
  | nil =>
    intro l2 h
    simp only [mapME] at h
    cases h
    rfl
  | cons a t ih =>
    intro l2 h
    simp only [mapME] at h
    cases hfa : f a with
    | error e => rw [hfa] at h; cases h
    | ok b =>
      rw [hfa] at h
      cases hmt : mapME f t with
      | error e => rw [hmt] at h; cases h
      | ok bs =>
        rw [hmt] at h
        cases h
        simp [ih bs hmt]

theorem mapME_ok_get {α β : Type} (f : α → Except PyError β) :
    ∀ (l : List α) (l2 : List β), mapME f l = .ok l2 →
      ∀ (j : Nat) (a : α), l[j]? = some a →
        ∃ b, l2[j]? = some b ∧ f a = .ok b := by
  intro l
  induction l with
  | nil => intro l2 _ j a ha; simp at ha
  | cons x t ih =>
    intro l2 h j a ha
    simp only [mapME] at h
    cases hfa : f x with
    | error e => rw [hfa] at h; cases h
    | ok b =>
      rw [hfa] at h
      cases hmt : mapME f t with
      | error e => rw [hmt] at h; cases h
      | ok bs =>
        rw [hmt] at h
        cases h
        cases j with
        | zero =>
          simp at ha
          subst ha
          exact ⟨b, by simp, hfa⟩
        | succ j =>
          simp at ha
          obtain ⟨b2, hb2, hfb2⟩ := ih bs hmt j a ha
          exact ⟨b2, by simpa using hb2, hfb2⟩

theorem mapME_ok_of_forall {α β : Type} (f : α → Except PyError β) :
    ∀ (l : List α), (∀ a ∈ l, ∃ b, f a = .ok b) → ∃ l2, mapME f l = .ok l2 := by
  intro l
  induction l with
  | nil => intro _; exact ⟨[], rfl⟩
  | cons a t ih =>
    intro h
    obtain ⟨b, hb⟩ := h a (by simp)
    obtain ⟨bs, hbs⟩ := ih fun x hx => h x (by simp [hx])
    exact ⟨b :: bs, by simp only [mapME]; rw [hb, hbs]⟩

theorem mapMO_some_length {α β : Type} (f : α → Option β) :
    ∀ (l : List α) (l2 : List β), mapMO f l = some l2 → l2.length = l.length := by
  intro l
  induction l with
  | nil => intro l2 h; simp only [mapMO] at h; cases h; rfl
  | cons a t ih =>
    intro l2 h
    simp only [mapMO] at h
    cases hfa : f a with
    | none => rw [hfa] at h; cases h
    | some b =>
      rw [hfa] at h
      cases hmt : mapMO f t with
      | none => rw [hmt] at h; cases h
      | some bs =>
        rw [hmt] at h
        cases h
        simp [ih bs hmt]

theorem mapMO_none_of_exists {α β : Type} (f : α → Option β) :
    ∀ (l : List α), (∃ a ∈ l, f a = none) → mapMO f l = none := by
  intro l
  induction l with
  | nil => rintro ⟨a, ha, _⟩; simp at ha
  | cons x t ih =>
    rintro ⟨a, ha, hfa⟩
    simp only [mapMO]
    rcases List.mem_cons.mp ha with h | h
    · subst h; rw [hfa]
    · cases hfx : f x with
      | none => rfl
      | some b => rw [ih ⟨a, h, hfa⟩]

theorem tryParseAll_none_of_exists (p : Value → Option Value) (cells : List Cell)
    (h : ∃ v, some v ∈ cells ∧ p v = none) : tryParseAll p cells = none := by
  obtain ⟨v, hv, hpv⟩ := h
  exact mapMO_none_of_exists _ cells ⟨some v, hv, by simp [hpv]⟩

theorem goFirstOccs_sublist {α : Type} [DecidableEq α] :
    ∀ (l : List α) (seen : List α), (goFirstOccs seen l).Sublist l := by
  intro l
  induction l with
  | nil => intro seen; exact List.Sublist.refl []
  | cons x t ih =>
    intro seen
    simp only [goFirstOccs]
    by_cases hx : x ∈ seen
    · rw [if_pos hx]; exact (ih seen).cons x
    · rw [if_neg hx]; exact (ih (x :: seen)).cons₂ x

theorem mem_goFirstOccs {α : Type} [DecidableEq α] :
    ∀ (l : List α) (seen : List α) (x : α),
      x ∈ goFirstOccs seen l ↔ x ∈ l ∧ x ∉ seen := by
  intro l
  induction l with
  | nil => intro seen x; simp [goFirstOccs]
  | cons y t ih =>
    intro seen x
    simp only [goFirstOccs]
    by_cases hy : y ∈ seen
    · rw [if_pos hy, ih]
      constructor
      · rintro ⟨h1, h2⟩; exact ⟨by simp [h1], h2⟩
      · rintro ⟨h1, h2⟩
        rcases List.mem_cons.mp h1 with h | h
        · subst h; exact absurd hy h2
        · exact ⟨h, h2⟩
    · rw [if_neg hy]
      constructor
      · intro hx
        rcases List.mem_cons.mp hx with h | h
        · subst h; exact ⟨by simp, hy⟩
        · have := (ih (y :: seen) x).mp h
          refine ⟨by simp [this.1], fun hs => this.2 (by simp [hs])⟩
      · rintro ⟨h1, h2⟩
        rcases List.mem_cons.mp h1 with h | h
        · subst h; simp
        · by_cases hxy : x = y
          · subst hxy; simp
          · exact List.mem_cons.mpr (Or.inr ((ih (y :: seen) x).mpr
              ⟨h, by simp [hxy, h2]⟩))

theorem goFirstOccs_nodup {α : Type} [DecidableEq α] :
    ∀ (l : List α) (seen : List α), (goFirstOccs seen l).Nodup := by
  intro l
  induction l with
  | nil => intro seen; simp [goFirstOccs]
  | cons x t ih =>
    intro seen
    simp only [goFirstOccs]
    by_cases hx : x ∈ seen
    · rw [if_pos hx]; exact ih seen
    · rw [if_neg hx]
      refine List.nodup_cons.mpr ⟨fun hmem => ?_, ih (x :: seen)⟩
      exact ((mem_goFirstOccs t (x :: seen) x).mp hmem).2 (by simp)

theorem goFirstOccs_eq_self {α : Type} [DecidableEq α] :
    ∀ (l : List α) (seen : List α), l.Nodup → (∀ x ∈ l, x ∉ seen) →
      goFirstOccs seen l = l := by
  intro l
  induction l with
  | nil => intro seen _ _; rfl
  | cons x t ih =>
    intro seen hnd hs
    simp only [goFirstOccs]
    rw [if_neg (hs x (by simp))]
    have hnd2 := List.nodup_cons.mp hnd
    congr 1
    refine ih (x :: seen) hnd2.2 fun y hy => ?_
    intro hmem
    rcases List.mem_cons.mp hmem with h | h
    · subst h; exact hnd2.1 hy
    · exact hs y (by simp [hy]) h

theorem dropDupGo_map_snd :
    ∀ (es : List (Nat × Row)) (seen : List Row),
      (dropDupGo seen es).map Prod.snd = goFirstOccs seen (es.map Prod.snd) := by
  intro es
  induction es with
  | nil => intro seen; rfl
  | cons e t ih =>
    intro seen
    simp only [dropDupGo, List.map_cons, goFirstOccs]
    by_cases he : e.2 ∈ seen
    · rw [if_pos he, if_pos he, ih]
    · rw [if_neg he, if_neg he, List.map_cons, ih]

theorem dropDupGo_sublist :
    ∀ (es : List (Nat × Row)) (seen : List Row), (dropDupGo seen es).Sublist es := by
  intro es
  induction es with
  | nil => intro seen; exact List.Sublist.refl []
  | cons e t ih =>
    intro seen
    simp only [dropDupGo]
    by_cases he : e.2 ∈ seen
    · rw [if_pos he]; exact (ih seen).cons e
    · rw [if_neg he]; exact (ih (e.2 :: seen)).cons₂ e

theorem dropDupGo_eq_self :
    ∀ (es : List (Nat × Row)) (seen : List Row), (es.map Prod.snd).Nodup →
      (∀ e ∈ es, e.2 ∉ seen) → dropDupGo seen es = es := by
  intro es
  induction es with
  | nil => intro seen _ _; rfl
  | cons e t ih =>
    intro seen hnd hs
    simp only [dropDupGo]
    rw [if_neg (hs e (by simp))]
    simp only [List.map_cons, List.nodup_cons] at hnd
    congr 1
    refine ih (e.2 :: seen) hnd.2 fun x hx => ?_
    intro hmem
    rcases List.mem_cons.mp hmem with h | h
    · exact hnd.1 (h ▸ List.mem_map_of_mem Prod.snd hx)
    · exact hs x (by simp [hx]) h

theorem reindex_map_snd (es : List (Nat × Row)) :
    (reindex es).map Prod.snd = es.map Prod.snd := by
  unfold reindex
  rw [List.map_map]
  have : (Prod.snd ∘ fun p : Nat × (Nat × Row) => (p.1, p.2.2)) =
      (Prod.snd ∘ Prod.snd) := rfl
  rw [this, ← List.map_map, List.enum_map_snd]

theorem reindex_map_fst (es : List (Nat × Row)) :
    (reindex es).map Prod.fst = List.range es.length := by
  unfold reindex
  rw [List.map_map]
  have : (Prod.fst ∘ fun p : Nat × (Nat × Row) => (p.1, p.2.2)) = Prod.fst := rfl
  rw [this, List.enum_map_fst]

theorem remove_duplicates_of_nodup {t : RowFrame}
    (h : (t.entries.map Prod.snd).Nodup) : remove_duplicates t = t := by
  unfold remove_duplicates
  rw [dropDupGo_eq_self t.entries [] h (by simp)]
  simp

theorem nodup_of_removedCount_zero {t : RowFrame} (h : removedCount t = 0) :
    (t.entries.map Prod.snd).Nodup := by
  unfold removedCount at h
  have hsub := dropDupGo_sublist t.entries []
  have hlen := hsub.length_le
  have : (dropDupGo [] t.entries).length = t.entries.length := by omega
  have heq := hsub.eq_of_length this
  have h2 : (t.entries.map Prod.snd) = goFirstOccs [] (t.entries.map Prod.snd) := by
    rw [← dropDupGo_map_snd, heq]
  rw [h2]
  exact goFirstOccs_nodup _ _

theorem removedCount_pos_of_not_nodup {t : RowFrame}
    (h : ¬ (t.entries.map Prod.snd).Nodup) : 0 < removedCount t := by
  rcases Nat.eq_zero_or_pos (removedCount t) with h0 | h0
  · exact absurd (nodup_of_removedCount_zero h0) h
  · exact h0

theorem remove_duplicates_of_pos {t : RowFrame} (h : 0 < removedCount t) :
    remove_duplicates t = ⟨reindex (dropDupGo [] t.entries)⟩ := by
  have h2 : 0 < t.entries.length - (dropDupGo [] t.entries).length := h
  show (if 0 < t.entries.length - (dropDupGo [] t.entries).length then
      (⟨reindex (dropDupGo [] t.entries)⟩ : RowFrame)
    else ⟨dropDupGo [] t.entries⟩) = _
  rw [if_pos h2]

theorem rd_map_snd (t : RowFrame) :
    (remove_duplicates t).entries.map Prod.snd = firstOccs (t.entries.map Prod.snd) := by
  by_cases h : (t.entries.map Prod.snd).Nodup
  · rw [remove_duplicates_of_nodup h]
    exact (goFirstOccs_eq_self _ [] h (by simp)).symm
  · rw [remove_duplicates_of_pos (removedCount_pos_of_not_nodup h)]
    show (reindex (dropDupGo [] t.entries)).map Prod.snd = _
    rw [reindex_map_snd, dropDupGo_map_snd]
    rfl

theorem ffillGo_length (carry : Cell) (cells : List Cell) :
    (ffillGo carry cells).length = cells.length := by
  induction cells generalizing carry with
  | nil => rfl
  | cons c cs ih => cases c <;> simp [ffillGo, ih]

theorem ffillGo_all_none :
    ∀ (cells : List Cell), (∀ x ∈ cells, x = none) → ffillGo none cells = cells := by
  intro cells
  induction cells with
  | nil => intro _; rfl
  | cons c cs ih =>
    intro h
    have hc : c = none := h c (by simp)
    subst hc
    simp only [ffillGo]
    rw [ih fun x hx => h x (by simp [hx])]

theorem ffillGo_isSome_of_carry :
    ∀ (cells : List Cell) (w : Value), ∀ x ∈ ffillGo (some w) cells, x.isSome := by
  intro cells
  induction cells with
  | nil => intro w x hx; simp [ffillGo] at hx
  | cons c cs ih =>
    intro w x hx
    cases c with
    | some v =>
      simp only [ffillGo, List.mem_cons] at hx
      rcases hx with h | h
      · subst h; rfl
      · exact ih v x h
    | none =>
      simp only [ffillGo, List.mem_cons] at hx
      rcases hx with h | h
      · subst h; rfl
      · exact ih w x h

theorem lastCarry_cons (carry : Cell) (c : Cell) (cs : List Cell) :
    lastCarry carry (c :: cs) =
      lastCarry (match c with | some v => some v | none => carry) cs := rfl

theorem lastCarry_isSome_of_carry :
    ∀ (cells : List Cell) (w : Value), ∃ u, lastCarry (some w) cells = some u := by
  intro cells
  induction cells with
  | nil => intro w; exact ⟨w, rfl⟩
  | cons c cs ih =>
    intro w
    cases c with
    | some v => rw [lastCarry_cons]; exact ih v
    | none => rw [lastCarry_cons]; exact ih w

theorem lastCarry_isSome_of_mem :
    ∀ (cells : List Cell) (carry : Cell), (∃ v, some v ∈ cells) →
      ∃ u, lastCarry carry cells = some u := by
  intro cells
  induction cells with
  | nil => rintro carry ⟨v, hv⟩; simp at hv
  | cons c cs ih =>
    rintro carry ⟨v, hv⟩
    cases c with
    | some u => rw [lastCarry_cons]; exact lastCarry_isSome_of_carry cs u
    | none =>
      rw [lastCarry_cons]
      rcases List.mem_cons.mp hv with h | h
      · cases h
      · exact ih carry ⟨v, h⟩

theorem ffillGo_eq_append_lastCarry :
    ∀ (cells : List Cell) (carry : Cell), cells ≠ [] →
      ∃ l2, ffillGo carry cells = l2 ++ [lastCarry carry cells] := by
  intro cells
  induction cells with
  | nil => intro carry h; exact absurd rfl h
  | cons c cs ih =>
    intro carry _
    by_cases hne : cs = []
    · subst hne
      cases c with
      | some v => exact ⟨[], rfl⟩
      | none => exact ⟨[], rfl⟩
    · cases c with
      | some v =>
        obtain ⟨l2, hl2⟩ := ih (some v) hne
        refine ⟨some v :: l2, ?_⟩
        show some v :: ffillGo (some v) cs = _
        rw [hl2, lastCarry_cons]
        rfl
      | none =>
        obtain ⟨l2, hl2⟩ := ih carry hne
        refine ⟨carry :: l2, ?_⟩
        show carry :: ffillGo carry cs = _
        rw [hl2, lastCarry_cons]
        rfl

theorem bfill_ffill_isSome {cells : List Cell} (h : ∃ v, some v ∈ cells) :
    ∀ x ∈ bfillL (ffillL cells), x.isSome := by
  have hne : cells ≠ [] := by
    obtain ⟨v, hv⟩ := h
    intro he
    rw [he] at hv
    simp at hv
  obtain ⟨l2, hl2⟩ := ffillGo_eq_append_lastCarry cells none hne
  obtain ⟨u, hu⟩ := lastCarry_isSome_of_mem cells none h
  intro x hx
  unfold bfillL ffillL at hx
  rw [hl2, hu] at hx
  rw [List.mem_reverse] at hx
  rw [List.reverse_append] at hx
  simp only [List.reverse_cons, List.reverse_nil, List.nil_append,
    List.singleton_append] at hx
  simp only [ffillGo, List.mem_cons] at hx
  rcases hx with h1 | h1
  · subst h1; rfl
  · exact ffillGo_isSome_of_carry _ u x h1

theorem bfill_ffill_all_none {cells : List Cell} (h : ∀ x ∈ cells, x = none) :
    bfillL (ffillL cells) = cells := by
  unfold bfillL ffillL
  rw [ffillGo_all_none cells h]
  rw [ffillGo_all_none cells.reverse fun x hx => h x (List.mem_reverse.mp hx)]
  exact List.reverse_reverse cells

theorem insertQ_length (x : ℚ) : ∀ (l : List ℚ), (insertQ x l).length = l.length + 1 := by
  intro l
  induction l with
  | nil => rfl
  | cons y ys ih =>
    simp only [insertQ]
    by_cases h : x ≤ y
    · rw [if_pos h]; rfl
    · rw [if_neg h]; simp [ih]

theorem sortQ_length : ∀ (l : List ℚ), (sortQ l).length = l.length := by
  intro l
  induction l with
  | nil => rfl
  | cons x xs ih => simp only [sortQ]; rw [insertQ_length, ih]; rfl

theorem medianQ_isSome {l : List ℚ} (h : l ≠ []) : ∃ m, medianQ l = some m := by
  have hlen : (sortQ l).length = l.length := sortQ_length l
  have hpos : 0 < (sortQ l).length := by
    rw [hlen]
    exact List.length_pos.mpr h
  unfold medianQ
  rw [if_neg (by omega)]
  by_cases hodd : (sortQ l).length % 2 = 1
  · rw [if_pos hodd]
    cases hg : (sortQ l).get? ((sortQ l).length / 2) with
    | none =>
      have := List.get?_eq_none.mp hg
      omega
    | some m => exact ⟨m, rfl⟩
  · rw [if_neg hodd]
    have h2 : 2 ≤ (sortQ l).length := by omega
    cases hg1 : (sortQ l).get? ((sortQ l).length / 2 - 1) with
    | none =>
      have := List.get?_eq_none.mp hg1
      omega
    | some a =>
      cases hg2 : (sortQ l).get? ((sortQ l).length / 2) with
      | none =>
        have := List.get?_eq_none.mp hg2
        omega
      | some b => exact ⟨(a + b) / 2, rfl⟩

theorem presentVals_eq_nil_iff {cells : List Cell} :
    presentVals cells = [] ↔ ∀ x ∈ cells, x = none := by
  unfold presentVals
  rw [List.filterMap_eq_nil_iff]
  constructor
  · intro h x hx; exact h x hx
  · intro h x hx; exact h x hx

theorem presentCount_eq_zero_iff {cells : List Cell} :
    presentCount cells = 0 ↔ ∀ x ∈ cells, x = none := by
  unfold presentCount
  rw [List.length_eq_zero]
  exact presentVals_eq_nil_iff

theorem exists_some_of_presentCount_pos {cells : List Cell}
    (h : 0 < presentCount cells) : ∃ v, some v ∈ cells := by
  unfold presentCount at h
  cases hp : presentVals cells with
  | nil => rw [hp] at h; simp at h
  | cons v vs =>
    refine ⟨v, ?_⟩
    have hv : v ∈ presentVals cells := by rw [hp]; simp
    unfold presentVals at hv
    obtain ⟨x, hx, hid⟩ := List.mem_filterMap.mp hv
    cases x with
    | none => cases hid
    | some w =>
      have : w = v := by simpa using hid
      subst this
      exact hx

theorem ratList_ne_nil {c : Column} (hdt : c.dtype = .numeric)
    (hwf : colWellFormed c = true) (h : 0 < presentCount c.cells) :
    ratList c.cells ≠ [] := by
  unfold presentCount at h
  cases hp : presentVals c.cells with
  | nil => rw [hp] at h; simp at h
  | cons v vs =>
    have hv : v ∈ presentVals c.cells := by rw [hp]; simp
    have htyped := List.all_eq_true.mp hwf v hv
    rw [hdt] at htyped
    cases v with
    | num q =>
      have : q ∈ ratList c.cells :=
        List.mem_filterMap.mpr ⟨Value.num q, hv, rfl⟩
      intro he
      rw [he] at this
      simp at this
    | date d => simp [isTyped] at htyped
    | str s => simp [isTyped] at htyped

theorem medianCell_isSome {c : Column} (hdt : c.dtype = .numeric)
    (hwf : colWellFormed c = true) (h : 0 < presentCount c.cells) :
    ∃ m, medianCell c.cells = some (Value.num m) := by
  obtain ⟨m, hm⟩ := medianQ_isSome (ratList_ne_nil hdt hwf h)
  exact ⟨m, by unfold medianCell; rw [hm]; rfl⟩

theorem medianCell_of_presentCount_zero {cells : List Cell}
    (h : presentCount cells = 0) : medianCell cells = none := by
  have hp : presentVals cells = [] := by
    unfold presentCount at h
    exact List.length_eq_zero.mp h
  unfold medianCell ratList
  rw [hp]
  rfl

theorem seriesMode_isSome {l : List Value} (h : l ≠ []) :
    ∃ m, seriesMode l = some m := by
  cases l with
  | nil => exact absurd rfl h
  | cons x xs =>
    unfold seriesMode firstOccs
    simp only [goFirstOccs]
    rw [if_neg (by simp)]
    exact ⟨_, rfl⟩

theorem missingCountL_fillWith_some (m : Value) (cells : List Cell) :
    missingCountL (fillWith (some m) cells) = 0 := by
  unfold missingCountL fillWith
  rw [List.countP_eq_zero]
  intro a ha
  obtain ⟨x, _, rfl⟩ := List.mem_map.mp ha
  simp

theorem missingCountL_eq_zero_of_isSome {cells : List Cell}
    (h : ∀ x ∈ cells, x.isSome) : missingCountL cells = 0 := by
  unfold missingCountL
  rw [List.countP_eq_zero]
  intro a ha
  have := h a ha
  simp [Option.isNone, Option.isSome] at this ⊢
  cases a with
  | none => cases this
  | some v => simp

theorem fillWith_none_eq (cells : List Cell) : fillWith none cells = cells := rfl

theorem clean_ok_cols {df df2 : DataFrame}
    (h : clean_missing_values df = .ok df2) :
    mapME cleanColumn df.cols = .ok df2.cols := by
  unfold clean_missing_values at h
  cases hm : mapME cleanColumn df.cols with
  | error e => rw [hm] at h; cases h
  | ok cs =>
    rw [hm] at h
    cases h
    rfl

theorem clean_ok_pair {df df2 : DataFrame}
    (h : clean_missing_values df = .ok df2) :
    df2.cols.length = df.cols.length ∧
      ∀ (j : Nat) (c c2 : Column), df.cols[j]? = some c → df2.cols[j]? = some c2 →
        cleanColumn c = .ok c2 := by
  have hm := clean_ok_cols h
  refine ⟨mapME_ok_length _ _ _ hm, fun j c c2 hc hc2 => ?_⟩
  obtain ⟨b, hb, hfb⟩ := mapME_ok_get _ _ _ hm j c hc
  rw [hb] at hc2
  cases hc2
  exact hfb

theorem cleanColumn_of_missing_zero {c : Column} (h : missingCountL c.cells = 0) :
    cleanColumn c = .ok c := by
  unfold cleanColumn
  rw [if_pos h]

theorem cleanColumn_numeric {c : Column} (hdt : c.dtype = .numeric)
    (hm : 0 < missingCountL c.cells) :
    cleanColumn c = .ok { c with cells := fillWith (medianCell c.cells) c.cells } := by
  unfold cleanColumn
  rw [if_neg (by omega), hdt]

theorem cleanColumn_datetime {c : Column} (hdt : c.dtype = .datetime)
    (hm : 0 < missingCountL c.cells) :
    cleanColumn c = .ok { c with cells := bfillL (ffillL c.cells) } := by
  unfold cleanColumn
  rw [if_neg (by omega), hdt]

theorem cleanColumn_mode {c : Column} {m : Value}
    (hdt : c.dtype = .object ∨ c.dtype = .category)
    (hm : 0 < missingCountL c.cells)
    (hmode : seriesMode (presentVals c.cells) = some m) :
    cleanColumn c = .ok { c with cells := fillWith (some m) c.cells } := by
  unfold cleanColumn
  rw [if_neg (by omega)]
  rcases hdt with h | h <;> rw [h] <;> rw [hmode]

theorem cleanColumn_mode_error {c : Column}
    (hdt : c.dtype = .object ∨ c.dtype = .category)
    (hm : 0 < missingCountL c.cells)
    (hmode : seriesMode (presentVals c.cells) = none) :
    cleanColumn c = .error .keyError := by
  unfold cleanColumn
  rw [if_neg (by omega)]
  rcases hdt with h | h <;> rw [h] <;> rw [hmode]

theorem cleanColumn_of_present_zero {c : Column} (h : presentCount c.cells = 0) :
    cleanColumn c = .ok c ∨ cleanColumn c = .error .keyError := by
  by_cases hm : missingCountL c.cells = 0
  · exact Or.inl (cleanColumn_of_missing_zero hm)
  · have hm2 : 0 < missingCountL c.cells := by omega
    have hall : ∀ x ∈ c.cells, x = none := presentCount_eq_zero_iff.mp h
    cases hdt : c.dtype with
    | numeric =>
      left
      rw [cleanColumn_numeric hdt hm2, medianCell_of_presentCount_zero h,
        fillWith_none_eq]
    | datetime =>
      left
      rw [cleanColumn_datetime hdt hm2, bfill_ffill_all_none hall]
    | object =>
      right
      have hp : presentVals c.cells = [] := presentVals_eq_nil_iff.mpr hall
      refine cleanColumn_mode_error (Or.inl hdt) hm2 ?_
      rw [hp]
      rfl
    | category =>
      right
      have hp : presentVals c.cells = [] := presentVals_eq_nil_iff.mpr hall
      refine cleanColumn_mode_error (Or.inr hdt) hm2 ?_
      rw [hp]
      rfl

/-! Claim theorems. -/

/-- Claim C1: whenever the Missing-Value Resolver returns a cleaned table,
every column that had at least one present value contains zero missing
markers afterwards, and every all-missing column is left untouched. -/
theorem c1_resolver_invariant
    (df df2 : DataFrame) (hok : clean_missing_values df = .ok df2)
    (hwf : ∀ c ∈ df.cols, colWellFormed c = true) :
    df2.cols.length = df.cols.length ∧
    ∀ (j : Nat) (c c2 : Column), df.cols[j]? = some c → df2.cols[j]? = some c2 →
      (0 < presentCount c.cells → missingCountL c2.cells = 0) ∧
      (presentCount c.cells = 0 → c2 = c) := by
  obtain ⟨hlen, hpair⟩ := clean_ok_pair hok
  refine ⟨hlen, fun j c c2 hc hc2 => ?_⟩
  have hcc := hpair j c c2 hc hc2
  have hcmem : c ∈ df.cols := List.getElem?_mem hc
  constructor
  · intro hpres
    by_cases hm : missingCountL c.cells = 0
    · rw [cleanColumn_of_missing_zero hm] at hcc
      cases hcc
      exact hm
    · have hm2 : 0 < missingCountL c.cells := by omega
      have hne : presentVals c.cells ≠ [] := by
        intro he
        unfold presentCount at hpres
        rw [he] at hpres
        simp at hpres
      cases hdt : c.dtype with
      | numeric =>
        obtain ⟨m, hmed⟩ := medianCell_isSome hdt (hwf c hcmem) hpres
        rw [cleanColumn_numeric hdt hm2, hmed] at hcc
        cases hcc
        exact missingCountL_fillWith_some _ _
      | datetime =>
        rw [cleanColumn_datetime hdt hm2] at hcc
        cases hcc
        exact missingCountL_eq_zero_of_isSome
          (bfill_ffill_isSome (exists_some_of_presentCount_pos hpres))
      | object =>
        obtain ⟨m, hmode⟩ := seriesMode_isSome hne
        rw [cleanColumn_mode (Or.inl hdt) hm2 hmode] at hcc
        cases hcc
        exact missingCountL_fillWith_some _ _
      | category =>
        obtain ⟨m, hmode⟩ := seriesMode_isSome hne
        rw [cleanColumn_mode (Or.inr hdt) hm2 hmode] at hcc
        cases hcc
        exact missingCountL_fillWith_some _ _
  · intro hz
    rcases cleanColumn_of_present_zero hz with h | h
    · rw [h] at hcc
      cases hcc
      rfl
    · rw [h] at hcc
      cases hcc

/-- Witness for C1 on `dfW1`: the numeric column with a gap comes back
gap-free, and the all-missing column comes back unchanged. -/
theorem c1_witness :
    missingCountL (⟨"n", Dtype.numeric, [some (Value.num 1), some (Value.num 2),
        some (Value.num 2), some (Value.num 4)]⟩ : Column).cells = 0 ∧
    (⟨"m", Dtype.numeric, [none, none, none, none]⟩ : Column) =
      ⟨"m", Dtype.numeric, [none, none, none, none]⟩ := by
  have h := c1_resolver_invariant dfW1 dfW1res rfl (by decide)
  have h0 := (h.2 0
    ⟨"n", .numeric, [some (.num 1), some (.num 2), none, some (.num 4)]⟩
    ⟨"n", .numeric, [some (.num 1), some (.num 2), some (.num 2), some (.num 4)]⟩
    rfl rfl).1 (by decide)
  have h1 := (h.2 1
    ⟨"m", .numeric, [none, none, none, none]⟩
    ⟨"m", .numeric, [none, none, none, none]⟩
    rfl rfl).2 (by decide)
  exact ⟨h0, h1⟩

/-- Counterexample to claim C2: on a table whose object column is entirely
missing, `clean_missing_values` raises (`mode()` is empty, `mode()[0]` is a
`KeyError`) instead of returning the table unchanged. -/
theorem c2_counterexample : clean_missing_values dfC2 = .error .keyError := rfl

/-- Claim C2 amended: the resolver returns normally as long as no
Categorical/Text (object or category dtype) column is entirely missing;
columns with zero missing values come back unchanged, and all-missing
numeric or datetime columns come back unchanged. -/
theorem c2_amended_no_raise
    (df : DataFrame)
    (hcat : ∀ c ∈ df.cols, (c.dtype = .object ∨ c.dtype = .category) →
      0 < missingCountL c.cells → 0 < presentCount c.cells) :
    ∃ df2, clean_missing_values df = .ok df2 ∧
      df2.cols.length = df.cols.length ∧
      ∀ (j : Nat) (c c2 : Column), df.cols[j]? = some c → df2.cols[j]? = some c2 →
        (missingCountL c.cells = 0 → c2 = c) ∧
        (presentCount c.cells = 0 → c2 = c) := by
  have hall : ∀ c ∈ df.cols, ∃ c2, cleanColumn c = .ok c2 := by
    intro c hc
    by_cases hm : missingCountL c.cells = 0
    · exact ⟨c, cleanColumn_of_missing_zero hm⟩
    · have hm2 : 0 < missingCountL c.cells := by omega
      cases hdt : c.dtype with
      | numeric => exact ⟨_, cleanColumn_numeric hdt hm2⟩
      | datetime => exact ⟨_, cleanColumn_datetime hdt hm2⟩
      | object =>
        have hpres := hcat c hc (Or.inl hdt) hm2
        have hne : presentVals c.cells ≠ [] := by
          intro he
          unfold presentCount at hpres
          rw [he] at hpres
          simp at hpres
        obtain ⟨m, hmode⟩ := seriesMode_isSome hne
        exact ⟨_, cleanColumn_mode (Or.inl hdt) hm2 hmode⟩
      | category =>
        have hpres := hcat c hc (Or.inr hdt) hm2
        have hne : presentVals c.cells ≠ [] := by
          intro he
          unfold presentCount at hpres
          rw [he] at hpres
          simp at hpres
        obtain ⟨m, hmode⟩ := seriesMode_isSome hne
        exact ⟨_, cleanColumn_mode (Or.inr hdt) hm2 hmode⟩
  obtain ⟨cs, hcs⟩ := mapME_ok_of_forall cleanColumn df.cols hall
  refine ⟨⟨cs⟩, ?_, mapME_ok_length _ _ _ hcs, ?_⟩
  · unfold clean_missing_values
    rw [hcs]
  · intro j c c2 hc hc2
    have hc2b : cs[j]? = some c2 := hc2
    obtain ⟨b, hb, hfb⟩ := mapME_ok_get _ _ _ hcs j c hc
    rw [hb] at hc2b
    cases hc2b
    constructor
    · intro hm
      rw [cleanColumn_of_missing_zero hm] at hfb
      cases hfb
      rfl
    · intro hz
      rcases cleanColumn_of_present_zero hz with h | h
      · rw [h] at hfb
        cases hfb
        rfl
      · rw [h] at hfb
        cases hfb

/-- Witness for the amended C2 on `dfW1`: the resolver returns normally. -/
theorem c2_witness :
    ∃ df2, clean_missing_values dfW1 = .ok df2 ∧
      df2.cols.length = dfW1.cols.length := by
  obtain ⟨df2, h1, h2, _⟩ := c2_amended_no_raise dfW1 (by decide)
  exact ⟨df2, h1, h2⟩

/-- Counterexample to claim C3: on the tied column [b, a, b, a, missing]
the code fills with "a" (pandas returns the modes sorted and takes the
least), while the first value in a stable frequency ordering is "b". -/
theorem c3_counterexample :
    clean_missing_values dfC3 = .ok dfC3res ∧
    (dfC3res.cols[0]?.bind fun c => c.cells[4]?) = some (some (Value.str "a")) ∧
    modeFirstInStableFrequencyOrder (presentVals
      [some (Value.str "b"), some (Value.str "a"), some (Value.str "b"),
       some (Value.str "a"), none]) = some (Value.str "b") ∧
    Value.str "a" ≠ Value.str "b" :=
  ⟨rfl, rfl, rfl, by decide⟩

/-- Claim C3 amended: on a successful run, a numeric column's gaps are all
filled with the median of its present values, a datetime column is forward-
then backward-propagated, and an object or category column's gaps are all
filled with `mode()[0]` - the least of the most frequent present values
(sorted order, not first-appearance order); present cells stay unchanged. -/
theorem c3_fill_strategies
    (df df2 : DataFrame) (hok : clean_missing_values df = .ok df2)
    (j : Nat) (c c2 : Column)
    (hc : df.cols[j]? = some c) (hc2 : df2.cols[j]? = some c2)
    (hmiss : 0 < missingCountL c.cells) :
    (∀ m, c.dtype = .numeric → medianCell c.cells = some m →
      ∀ (i : Nat),
        (c.cells[i]? = some none → c2.cells[i]? = some (some m)) ∧
        (∀ v, c.cells[i]? = some (some v) → c2.cells[i]? = some (some v))) ∧
    (c.dtype = .datetime → c2.cells = bfillL (ffillL c.cells)) ∧
    (∀ m, (c.dtype = .object ∨ c.dtype = .category) →
      seriesMode (presentVals c.cells) = some m →
      ∀ (i : Nat),
        (c.cells[i]? = some none → c2.cells[i]? = some (some m)) ∧
        (∀ v, c.cells[i]? = some (some v) → c2.cells[i]? = some (some v))) := by
  have hcc := (clean_ok_pair hok).2 j c c2 hc hc2
  refine ⟨?_, ?_, ?_⟩
  · intro m hdt hmed
    rw [cleanColumn_numeric hdt hmiss, hmed] at hcc
    cases hcc
    intro i
    constructor
    · intro hi
      show (fillWith (some m) c.cells)[i]? = some (some m)
      unfold fillWith
      rw [List.getElem?_map, hi]
      rfl
    · intro v hi
      show (fillWith (some m) c.cells)[i]? = some (some v)
      unfold fillWith
      rw [List.getElem?_map, hi]
      rfl
  · intro hdt
    rw [cleanColumn_datetime hdt hmiss] at hcc
    cases hcc
    rfl
  · intro m hdt hmode
    rw [cleanColumn_mode hdt hmiss hmode] at hcc
    cases hcc
    intro i
    constructor
    · intro hi
      show (fillWith (some m) c.cells)[i]? = some (some m)
      unfold fillWith
      rw [List.getElem?_map, hi]
      rfl
    · intro v hi
      show (fillWith (some m) c.cells)[i]? = some (some v)
      unfold fillWith
      rw [List.getElem?_map, hi]
      rfl

/-- Witness for the amended C3 on `dfW3`: the numeric gap is filled with
the median 2, the datetime column with forward/backward propagation, and
the text gap with the mode "a". -/
theorem c3_witness :
    ((⟨"n", Dtype.numeric, [some (Value.num 1), some (Value.num 2),
        some (Value.num 2), some (Value.num 4)]⟩ : Column).cells[2]? =
      some (some (Value.num 2))) ∧
    ((⟨"t", Dtype.datetime, [some (Value.date 20240102), some (Value.date 20240102),
        some (Value.date 20240102), some (Value.date 20240105)]⟩ : Column).cells =
      bfillL (ffillL [none, some (Value.date 20240102), none,
        some (Value.date 20240105)])) ∧
    ((⟨"c", Dtype.object, [some (Value.str "a"), some (Value.str "a"),
        some (Value.str "b"), some (Value.str "a")]⟩ : Column).cells[3]? =
      some (some (Value.str "a"))) := by
  have h0 := ((c3_fill_strategies dfW3 dfW3res rfl 0
    ⟨"n", .numeric, [some (.num 1), some (.num 2), none, some (.num 4)]⟩
    ⟨"n", .numeric, [some (.num 1), some (.num 2), some (.num 2), some (.num 4)]⟩
    rfl rfl (by decide)).1 (Value.num 2) rfl rfl 2).1 rfl
  have h1 := (c3_fill_strategies dfW3 dfW3res rfl 1
    ⟨"t", .datetime, [none, some (.date 20240102), none, some (.date 20240105)]⟩
    ⟨"t", .datetime, [some (.date 20240102), some (.date 20240102),
      some (.date 20240102), some (.date 20240105)]⟩
    rfl rfl (by decide)).2.1 rfl
  have h2 := ((c3_fill_strategies dfW3 dfW3res rfl 2
    ⟨"c", .object, [some (.str "a"), some (.str "a"), some (.str "b"), none]⟩
    ⟨"c", .object, [some (.str "a"), some (.str "a"), some (.str "b"),
      some (.str "a")]⟩
    rfl rfl (by decide)).2.2 (Value.str "a") (Or.inl rfl) rfl 3).1 rfl
  exact ⟨h0, h1, h2⟩

theorem convert_pair {df : DataFrame} {j : Nat} {c c2 : Column}
    (hc : df.cols[j]? = some c) (hc2 : (convert_data_types df).cols[j]? = some c2) :
    c2 = convertColumn (nRows df) c := by
  have h : (df.cols.map (convertColumn (nRows df)))[j]? = some c2 := hc2
  rw [List.getElem?_map, hc] at h
  simp only [Option.map_some'] at h
  exact (Option.some_inj.mp h).symm

theorem convertColumn_not_object {rows : Nat} {c : Column} (h : c.dtype ≠ .object) :
    convertColumn rows c = c := by
  unfold convertColumn
  by_cases h1 : c.dtype = .numeric ∨ c.dtype = .datetime
  · rw [if_pos h1]
  · rw [if_neg h1, if_neg h]

theorem convertColumn_object_numeric {rows : Nat} {c : Column} {cs : List Cell}
    (h : c.dtype = .object) (hp : tryParseAll parseCellNumeric c.cells = some cs) :
    convertColumn rows c = { c with dtype := .numeric, cells := cs } := by
  unfold convertColumn
  rw [if_neg (by simp [h]), if_pos h, hp]

theorem convertColumn_object_temporal {rows : Nat} {c : Column} {cs : List Cell}
    (h : c.dtype = .object) (hn : tryParseAll parseCellNumeric c.cells = none)
    (ht : tryParseAll parseCellTemporal c.cells = some cs) :
    convertColumn rows c = { c with dtype := .datetime, cells := cs } := by
  unfold convertColumn
  rw [if_neg (by simp [h]), if_pos h, hn, ht]

theorem convertColumn_object_fallback {rows : Nat} {c : Column}
    (h : c.dtype = .object) (hn : tryParseAll parseCellNumeric c.cells = none)
    (ht : tryParseAll parseCellTemporal c.cells = none) :
    convertColumn rows c =
      if (nunique c.cells : ℚ) < min (100 : ℚ) ((rows : ℚ) / 2)
      then { c with dtype := .category } else c := by
  unfold convertColumn
  rw [if_neg (by simp [h]), if_pos h, hn, ht]

theorem convertColumn_cells_length (rows : Nat) (c : Column) :
    (convertColumn rows c).cells.length = c.cells.length := by
  by_cases h1 : c.dtype = .object
  · cases hn : tryParseAll parseCellNumeric c.cells with
    | some cs =>
      rw [convertColumn_object_numeric h1 hn]
      exact mapMO_some_length _ _ _ hn
    | none =>
      cases ht : tryParseAll parseCellTemporal c.cells with
      | some cs =>
        rw [convertColumn_object_temporal h1 hn ht]
        exact mapMO_some_length _ _ _ ht
      | none =>
        rw [convertColumn_object_fallback h1 hn ht]
        by_cases hcond : (nunique c.cells : ℚ) < min (100 : ℚ) ((rows : ℚ) / 2)
        · rw [if_pos hcond]
        · rw [if_neg hcond]
  · rw [convertColumn_not_object h1]

theorem nRows_convert (df : DataFrame) :
    nRows (convert_data_types df) = nRows df := by
  show nRows ⟨df.cols.map (convertColumn (nRows df))⟩ = nRows df
  cases h : df.cols with
  | nil => unfold nRows; rw [h]; rfl
  | cons c cs =>
    unfold nRows
    rw [h]
    simp only [List.map_cons, List.head?_cons, Option.map_some', Option.getD_some]
    exact convertColumn_cells_length _ c

theorem convertColumn_idem (rows : Nat) (c : Column) :
    convertColumn rows (convertColumn rows c) = convertColumn rows c := by
  by_cases h2 : c.dtype = .object
  · cases hn : tryParseAll parseCellNumeric c.cells with
    | some cs =>
      rw [convertColumn_object_numeric h2 hn]
      exact convertColumn_not_object (by simp)
    | none =>
      cases ht : tryParseAll parseCellTemporal c.cells with
      | some cs =>
        rw [convertColumn_object_temporal h2 hn ht]
        exact convertColumn_not_object (by simp)
      | none =>
        rw [convertColumn_object_fallback h2 hn ht]
        by_cases hcond : (nunique c.cells : ℚ) < min (100 : ℚ) ((rows : ℚ) / 2)
        · rw [if_pos hcond]
          exact convertColumn_not_object (by simp)
        · rw [if_neg hcond]
          rw [convertColumn_object_fallback h2 hn ht, if_neg hcond]
  · rw [convertColumn_not_object h2]
    exact convertColumn_not_object h2

/-- Counterexample to claim C4: a column already of pandas category dtype is
non-Numeric and non-Temporal and all its present values parse as numeric,
yet `convert_data_types` leaves it untouched (dtype still category, not
Numeric), because only `dtype == object` columns enter the cascade. -/
theorem c4_counterexample :
    colCat.dtype ≠ Dtype.numeric ∧ colCat.dtype ≠ Dtype.datetime ∧
    tryParseAll parseCellNumeric colCat.cells =
      some [some (Value.num 1), some (Value.num 2)] ∧
    convert_data_types dfC4 = dfC4 ∧ colCat.dtype = Dtype.category :=
  ⟨by decide, by decide, rfl, rfl, rfl⟩

/-- Claim C4 amended: the Type Coercer processes each free-Text (object
dtype) column by the all-or-nothing cascade - full numeric parse, else full
temporal parse, else retype Categorical exactly when the distinct-value
count is below `min(100, 0.5 * row_count)`, else leave as Text - while
columns already Numeric, Temporal or Categorical are left untouched; a
single unparsable present value makes a whole attempt fail, and the
function is total. -/
theorem c4_coercion_cascade
    (df : DataFrame) (j : Nat) (c c2 : Column)
    (hc : df.cols[j]? = some c) (hc2 : (convert_data_types df).cols[j]? = some c2) :
    (c.dtype ≠ .object → c2 = c) ∧
    (∀ (p : Value → Option Value), (∃ v, some v ∈ c.cells ∧ p v = none) →
      tryParseAll p c.cells = none) ∧
    (c.dtype = .object →
      (∀ cs, tryParseAll parseCellNumeric c.cells = some cs →
        c2 = { c with dtype := Dtype.numeric, cells := cs }) ∧
      (tryParseAll parseCellNumeric c.cells = none →
        (∀ cs, tryParseAll parseCellTemporal c.cells = some cs →
          c2 = { c with dtype := Dtype.datetime, cells := cs }) ∧
        (tryParseAll parseCellTemporal c.cells = none →
          c2.cells = c.cells ∧
          (c2.dtype = .category ↔
            (nunique c.cells : ℚ) < min (100 : ℚ) ((nRows df : ℚ) / 2)) ∧
          (¬ ((nunique c.cells : ℚ) < min (100 : ℚ) ((nRows df : ℚ) / 2)) →
            c2 = c)))) := by
  have he : c2 = convertColumn (nRows df) c := convert_pair hc hc2
  subst he
  refine ⟨fun h => convertColumn_not_object h,
    fun p hex => tryParseAll_none_of_exists p c.cells hex,
    fun h => ⟨fun cs hcs => convertColumn_object_numeric h hcs,
      fun hn => ⟨fun cs hcs => convertColumn_object_temporal h hn hcs,
        fun ht => ?_⟩⟩⟩
  rw [convertColumn_object_fallback h hn ht]
  by_cases hcond : (nunique c.cells : ℚ) < min (100 : ℚ) ((nRows df : ℚ) / 2)
  · rw [if_pos hcond]
    exact ⟨rfl, ⟨fun _ => hcond, fun _ => rfl⟩, fun hc2 => absurd hcond hc2⟩
  · rw [if_neg hcond]
    refine ⟨rfl, ⟨?_, fun hcond2 => absurd hcond2 hcond⟩, fun _ => rfl⟩
    intro hdt
    exact absurd (h.symm.trans hdt) (by decide)

/-- Witness for the amended C4 on `dfW4`: the numeric-as-text column is
retyped Numeric with parsed cells. -/
theorem c4_witness :
    ∃ c2 : Column, (convert_data_types dfW4).cols[0]? = some c2 ∧
      c2.dtype = Dtype.numeric ∧
      c2.cells = [some (Value.num 1), some (Value.num 2), some (Value.num 3)] := by
  have h := ((c4_coercion_cascade dfW4 0
    ⟨"s", .object, [some (.str "1"), some (.str "2"), some (.str "3")]⟩
    ⟨"s", .numeric, [some (.num 1), some (.num 2), some (.num 3)]⟩
    rfl rfl).2.2 rfl).1
    [some (.num 1), some (.num 2), some (.num 3)] rfl
  exact ⟨⟨"s", .numeric, [some (.num 1), some (.num 2), some (.num 3)]⟩,
    rfl, congrArg Column.dtype h, congrArg Column.cells h⟩

/-- Claim C5: the Duplicate Eliminator keeps exactly the first occurrences
of the rows, in order (so the retained row list is duplicate-free, is a
sublist of the original, and retains exactly the original row set); it
renumbers the index contiguously from 0 when at least one row was removed,
and returns the frame untouched when none was. -/
theorem c5_duplicate_eliminator (t : RowFrame) :
    ((remove_duplicates t).entries.map Prod.snd =
      firstOccs (t.entries.map Prod.snd)) ∧
    (firstOccs (t.entries.map Prod.snd)).Sublist (t.entries.map Prod.snd) ∧
    (firstOccs (t.entries.map Prod.snd)).Nodup ∧
    (∀ r : Row, r ∈ firstOccs (t.entries.map Prod.snd) ↔
      r ∈ t.entries.map Prod.snd) ∧
    (¬ (t.entries.map Prod.snd).Nodup →
      (remove_duplicates t).entries.map Prod.fst =
        List.range (firstOccs (t.entries.map Prod.snd)).length) ∧
    ((t.entries.map Prod.snd).Nodup → remove_duplicates t = t) := by
  refine ⟨rd_map_snd t, goFirstOccs_sublist _ _, goFirstOccs_nodup _ _, ?_, ?_,
    fun h => remove_duplicates_of_nodup h⟩
  · intro r
    unfold firstOccs
    rw [mem_goFirstOccs]
    simp
  · intro h
    rw [remove_duplicates_of_pos (removedCount_pos_of_not_nodup h)]
    show (reindex (dropDupGo [] t.entries)).map Prod.fst = _
    rw [reindex_map_fst]
    have h2 : firstOccs (t.entries.map Prod.snd) =
        (dropDupGo [] t.entries).map Prod.snd := (dropDupGo_map_snd _ _).symm
    rw [h2, List.length_map]

/-- Witness for C5 on `tW5` (rows 0 and 2 equal, missing matching
missing): the result keeps first occurrences and renumbers from 0. -/
theorem c5_witness :
    (remove_duplicates tW5).entries.map Prod.snd =
      firstOccs (tW5.entries.map Prod.snd) ∧
    (remove_duplicates tW5).entries.map Prod.fst =
      List.range (firstOccs (tW5.entries.map Prod.snd)).length := by
  have h := c5_duplicate_eliminator tW5
  exact ⟨h.1, h.2.2.2.2.1 (by decide)⟩

/-- Counterexample to claim C6: the removed-row count is not part of what
`remove_duplicates` returns - no function of the returned frame can
recover it, because a one-row frame and a two-row frame with a duplicate
map to the same output while their counts differ. -/
theorem c6_counterexample :
    ¬ ∃ g : RowFrame → Nat, ∀ t, g (remove_duplicates t) = removedCount t := by
  rintro ⟨g, hg⟩
  have h1 := hg tC6a
  have h2 := hg tC6b
  have e1 : remove_duplicates tC6a = tC6a := by decide
  have e2 : remove_duplicates tC6b = tC6a := by decide
  have r1 : removedCount tC6a = 0 := by decide
  have r2 : removedCount tC6b = 1 := by decide
  rw [e1, r1] at h1
  rw [e2, r2] at h2
  omega

/-- Claim C6 amended: `remove_duplicates` computes the removed-row count
internally and uses it only to decide whether to renumber the index; the
caller receives only the cleaned table. -/
theorem c6_count_internal_only (t : RowFrame) :
    (removedCount t = 0 → remove_duplicates t = t) ∧
    (0 < removedCount t →
      (remove_duplicates t).entries.map Prod.fst =
        List.range (t.entries.length - removedCount t)) := by
  constructor
  · intro h
    exact remove_duplicates_of_nodup (nodup_of_removedCount_zero h)
  · intro h
    rw [remove_duplicates_of_pos h]
    show (reindex (dropDupGo [] t.entries)).map Prod.fst = _
    rw [reindex_map_fst]
    have hsub := (dropDupGo_sublist t.entries []).length_le
    unfold removedCount
    congr 1
    omega

/-- Witness for the amended C6 on `tC6b`. -/
theorem c6_witness :
    (remove_duplicates tC6b).entries.map Prod.fst = List.range 1 :=
  (c6_count_internal_only tC6b).2 (by decide)

/-- Claim C7: the chart selector is a pure function of the column dtype and
the distinct-value count: numeric offers exactly the histogram; non-numeric
with at most 10 distinct values offers exactly bar and pie; non-numeric
with more offers exactly bar. -/
theorem c7_chart_selector (dt : Dtype) (n : Nat) :
    (dt = .numeric → selectChartTypes dt n = [.histogram]) ∧
    (dt ≠ .numeric → n ≤ 10 → selectChartTypes dt n = [.barChart, .pieChart]) ∧
    (dt ≠ .numeric → 10 < n → selectChartTypes dt n = [.barChart]) := by
  unfold selectChartTypes
  refine ⟨fun h => by rw [if_pos h], fun h h2 => by rw [if_neg h, if_pos h2],
    fun h h2 => by rw [if_neg h, if_neg (by omega)]⟩

/-- Witness for C7 at the spec's sample points. -/
theorem c7_witness :
    selectChartTypes .numeric 7 = [.histogram] ∧
    selectChartTypes .object 5 = [.barChart, .pieChart] ∧
    selectChartTypes .object 50 = [.barChart] :=
  ⟨(c7_chart_selector .numeric 7).1 rfl,
   (c7_chart_selector .object 5).2.1 (by decide) (by decide),
   (c7_chart_selector .object 50).2.2 (by decide) (by decide)⟩

/-- Claim C8: the Type Coercer is idempotent - a second pass changes
nothing, since columns retyped Numeric or Temporal are skipped, retyped
Categorical columns fail the object test, and untouched Text columns fail
the same cascade again. -/
theorem c8_coercion_idempotent (df : DataFrame) :
    convert_data_types (convert_data_types df) = convert_data_types df := by
  show DataFrame.mk ((convert_data_types df).cols.map
    (convertColumn (nRows (convert_data_types df)))) = _
  rw [nRows_convert]
  show DataFrame.mk ((df.cols.map (convertColumn (nRows df))).map
    (convertColumn (nRows df))) = _
  rw [List.map_map]
  have hfix : (convertColumn (nRows df)) ∘ (convertColumn (nRows df)) =
      convertColumn (nRows df) := funext (convertColumn_idem (nRows df))
  rw [hfix]
  rfl

/-- Claim C9: the Duplicate Eliminator is idempotent - its output has
duplicate-free rows, on which a second pass removes nothing and leaves the
index untouched. -/
theorem c9_dedupe_idempotent (t : RowFrame) :
    remove_duplicates (remove_duplicates t) = remove_duplicates t := by
  have hnd : ((remove_duplicates t).entries.map Prod.snd).Nodup := by
    rw [rd_map_snd]
    exact goFirstOccs_nodup _ _
  exact remove_duplicates_of_nodup hnd

/-- Claim C10: on any table and any existing column name, `plot_pie_chart`
reaches `ax.axiis('equal')` (source line 131) - an attribute the Matplotlib
`Axes` API does not have - and so raises `AttributeError` before
returning a figure. -/
theorem c10_pie_chart_raises (df : DataFrame) (name : String)
    (title : Option String) (col : Column) (h : findCol df name = some col) :
    plot_pie_chart df name title = .error .attributeError := by
  unfold plot_pie_chart
  rw [h]
  rfl

/-- Witness for C10 on `dfW10`. -/
theorem c10_witness : plot_pie_chart dfW10 "c" none = .error .attributeError :=
  c10_pie_chart_raises dfW10 "c" none ⟨"c", .object, [some (.str "x")]⟩ rfl

end DataCleaner
